import Mathlib

set_option linter.unusedVariables false

/-!
Shallow embedding of the game logic of `src/emoji_memory_match.py`
(classes `CardState`, `Card`, `MemoryGame`).

Modelling conventions:
* Python floats (`time.time()` values, `dt`, animation progress, the
  mismatch timer) are modelled as exact rationals `Rat`; the claims under
  study are about control flow, not floating-point rounding.
* In Python, `revealed_cards` holds references to the same `Card` objects
  stored in the grid, and mutating a card mutates the grid.  Here the grid
  `cards : List (List Card)` is the single source of truth and
  `revealed_cards` stores grid positions `(row, col)`; an in-place mutation
  of a referenced card becomes a functional update of the grid cell.
* `image_id`s (Python dict-key strings) become `Nat`.
* Rendering surfaces are not modelled; of the drawing code only its
  effect on game state is kept (`draw_ui` lazily records `win_time`).
* `random.shuffle` is modelled by passing the shuffled list explicitly;
  theorems hypothesise that it is a permutation of the unshuffled list.
-/

set_option autoImplicit false

namespace MemoryMatch

/-- Python `CardState` enum. -/
inductive CardState where
  | hidden
  | revealed
  | matched
  | flipping
deriving DecidableEq, Repr

/-- Python `Card` (the `image_surface` rendering handle is not modelled). -/
structure Card where
  image_id : Nat
  row : Nat
  col : Nat
  state : CardState
  flip_animation_progress : Rat
  match_animation_progress : Rat
deriving DecidableEq, Repr

/-- `Card.start_flip_animation`. -/
def start_flip_animation (c : Card) : Card :=
  { c with state := CardState.flipping, flip_animation_progress := 0 }

/-- `Card.update_flip_animation` (the returned bool is unused by callers'
state logic and is dropped). -/
def update_flip_animation (c : Card) (dt : Rat) : Card :=
  if c.state = CardState.flipping then
    let p := c.flip_animation_progress + dt * 8
    if 1 ≤ p then
      { c with flip_animation_progress := 1, state := CardState.revealed }
    else
      { c with flip_animation_progress := p }
  else c

/-- `Card.start_match_animation`. -/
def start_match_animation (c : Card) : Card :=
  { c with match_animation_progress := 0 }

/-- `Card.update_match_animation` (returned bool dropped). -/
def update_match_animation (c : Card) (dt : Rat) : Card :=
  if c.state = CardState.matched then
    let p := c.match_animation_progress + dt * 4
    if 1 ≤ p then
      { c with match_animation_progress := 1 }
    else
      { c with match_animation_progress := p }
  else c

/-- Game state: the mutable attributes of Python class `MemoryGame`.
`win_time` models the lazily-created `self.win_time` attribute
(`none` = attribute absent, i.e. `hasattr(self, 'win_time')` false). -/
structure MemoryGame where
  cards : List (List Card)
  revealed_cards : List (Nat × Nat)
  moves : Nat
  start_time : Option Rat
  game_won : Bool
  mismatch_timer : Rat
  showing_mismatch : Bool
  win_time : Option Rat
deriving DecidableEq, Repr

/-- Default card returned by out-of-range grid reads (Python would raise
`IndexError`; all verified accesses are in range). -/
def dummyCard : Card :=
  { image_id := 0, row := 0, col := 0, state := CardState.hidden,
    flip_animation_progress := 0, match_animation_progress := 0 }

/-- Read the grid cell `self.cards[row][col]`. -/
def getCard (cards : List (List Card)) (rc : Nat × Nat) : Card :=
  (cards.getD rc.1 []).getD rc.2 dummyCard

/-- Replace element `i` of a list by `f` applied to it (no-op out of range). -/
def modifyNth {α : Type} (f : α → α) : Nat → List α → List α
  | _, [] => []
  | 0, a :: as => f a :: as
  | n + 1, a :: as => a :: modifyNth f n as

/-- Functional counterpart of mutating the card object at grid position
`rc` (Python mutates the shared `Card` object in place). -/
def modifyCard (cards : List (List Card)) (rc : Nat × Nat) (f : Card → Card) :
    List (List Card) :=
  modifyNth (fun row => modifyNth f rc.2 row) rc.1 cards

/-- `MemoryGame.GRID_SIZE`. -/
def GRID_SIZE : Nat := 4

/-- `MemoryGame.CARD_SIZE`. -/
def CARD_SIZE : Int := 100

/-- `MemoryGame.CARD_MARGIN`. -/
def CARD_MARGIN : Int := 10

/-- The 8-image selection of `MemoryGame.setup_game`: the first 8 available
keys, or keys repeated cyclically when fewer than 8 are available. -/
def selected_images (image_keys : List Nat) : List Nat :=
  if 8 ≤ image_keys.length then
    image_keys.take 8
  else
    (List.range 8).map (fun i => image_keys.getD (i % image_keys.length) 0)

/-- `image_pairs = selected_images * 2` (Python list repetition). -/
def image_pairs (image_keys : List Nat) : List Nat :=
  selected_images image_keys ++ selected_images image_keys

/-- `MemoryGame.setup_game`, with `random.shuffle image_pairs` modelled by
receiving the already-shuffled list `shuffled` (theorems hypothesise
`shuffled.Perm (image_pairs image_keys)`).  Builds the 4x4 grid in
row-major order and resets all game state. -/
def setup_game (image_keys shuffled : List Nat) : MemoryGame :=
  { cards :=
      (List.range GRID_SIZE).map (fun row =>
        (List.range GRID_SIZE).map (fun col =>
          { image_id := shuffled.getD (GRID_SIZE * row + col) 0,
            row := row, col := col, state := CardState.hidden,
            flip_animation_progress := 0, match_animation_progress := 0 })),
    revealed_cards := [],
    moves := 0,
    start_time := none,
    game_won := false,
    mismatch_timer := 0,
    showing_mismatch := false,
    win_time := none }

/-- `MemoryGame.get_card_rect`: top-left corner of the card rectangle
(width and height are `CARD_SIZE`). -/
def get_card_rect (row col : Nat) : Int × Int :=
  ((col : Int) * (CARD_SIZE + CARD_MARGIN),
   (row : Int) * (CARD_SIZE + CARD_MARGIN) + 100)

/-- `pygame.Rect.collidepoint` on the card rect: inclusive on top/left,
exclusive on bottom/right. -/
def collide (row col : Nat) (pos : Int × Int) : Bool :=
  let r := get_card_rect row col
  decide (r.1 ≤ pos.1) && decide (pos.1 < r.1 + CARD_SIZE) &&
  decide (r.2 ≤ pos.2) && decide (pos.2 < r.2 + CARD_SIZE)

/-- The double loop of `handle_card_click`: first grid cell (row-major)
whose rect contains `pos`, if any. -/
def find_clicked_cell (pos : Int × Int) : Option (Nat × Nat) :=
  ((List.range GRID_SIZE).flatMap (fun row =>
    (List.range GRID_SIZE).map (fun col => (row, col)))).find?
    (fun rc => collide rc.1 rc.2 pos)

/-- `MemoryGame.check_win`: all-cards-matched scan. -/
def all_matched (cards : List (List Card)) : Bool :=
  cards.all (fun row => row.all (fun c => decide (c.state = CardState.matched)))

/-- `MemoryGame.check_win`. -/
def check_win (g : MemoryGame) : MemoryGame :=
  if all_matched g.cards then { g with game_won := true } else g

/-- The per-card effect of the match branch of `reveal_card`:
`cardN.state = CardState.MATCHED; cardN.start_match_animation()`. -/
def matchCard (c : Card) : Card :=
  start_match_animation { c with state := CardState.matched }

/-- `MemoryGame.reveal_card`, called on the card at grid position `rc`;
`now` is the ambient `time.time()`. -/
def reveal_card (g : MemoryGame) (now : Rat) (rc : Nat × Nat) : MemoryGame :=
  let st := if g.start_time = none then some now else g.start_time
  let cards1 := modifyCard g.cards rc start_flip_animation
  let revealed1 := g.revealed_cards ++ [rc]
  match revealed1 with
  | [p1, p2] =>
    let g2 := { g with start_time := st, cards := cards1,
                       revealed_cards := revealed1, moves := g.moves + 1 }
    if (getCard g2.cards p1).image_id = (getCard g2.cards p2).image_id then
      let cards2 := modifyCard (modifyCard g2.cards p1 matchCard) p2 matchCard
      check_win { g2 with cards := cards2, revealed_cards := [] }
    else
      { g2 with showing_mismatch := true, mismatch_timer := 1 }
  | _ =>
    { g with start_time := st, cards := cards1, revealed_cards := revealed1 }

/-- `MemoryGame.handle_card_click`. -/
def handle_card_click (g : MemoryGame) (now : Rat) (pos : Int × Int) :
    MemoryGame :=
  if g.game_won || g.showing_mismatch then g
  else
    match find_clicked_cell pos with
    | none => g
    | some rc =>
      if (getCard g.cards rc).state = CardState.hidden then
        reveal_card g now rc
      else g

/-- Per-card part of `MemoryGame.update`: flip animation then match
animation, as in the Python per-card loop. -/
def step_card (dt : Rat) (c : Card) : Card :=
  update_match_animation (update_flip_animation c dt) dt

/-- The animation loop of `MemoryGame.update`. -/
def update_cards (cards : List (List Card)) (dt : Rat) : List (List Card) :=
  cards.map (fun row => row.map (step_card dt))

/-- The mismatch-resolution loop of `MemoryGame.update`: set every card in
`revealed_cards` back to hidden. -/
def hideCards (cards : List (List Card)) (L : List (Nat × Nat)) :
    List (List Card) :=
  L.foldl (fun acc rc =>
    modifyCard acc rc (fun c => { c with state := CardState.hidden })) cards

/-- `MemoryGame.update`. -/
def update (g : MemoryGame) (dt : Rat) : MemoryGame :=
  let g1 := { g with cards := update_cards g.cards dt }
  if g1.showing_mismatch then
    let t := g1.mismatch_timer - dt
    if t ≤ 0 then
      { g1 with cards := hideCards g1.cards g1.revealed_cards,
                revealed_cards := [],
                mismatch_timer := t,
                showing_mismatch := false }
    else
      { g1 with mismatch_timer := t }
  else g1

/-- `MemoryGame.draw_ui`, restricted to its effect on game state: the
first call with `game_won` true and no `win_time` attribute records
`self.win_time = time.time()`; every other statement only reads state
and blits to the screen. -/
def draw_ui (g : MemoryGame) (now : Rat) : MemoryGame :=
  if g.game_won && g.win_time.isNone then { g with win_time := some now }
  else g

/-- `MemoryGame.draw`: background fill, `draw_card` for every card (no
state effect), then `draw_ui`, then `pygame.display.flip`.  Its whole
effect on game state is that of `draw_ui`. -/
def draw (g : MemoryGame) (now : Rat) : MemoryGame :=
  draw_ui g now

/-- One observable operation on a running game, as dispatched by the
`run` loop of the source: a left mouse click, an `update dt` tick, or a
`draw`.  Restart (`setup_game`) is deliberately excluded: the claims are
about a single game. -/
inductive Step : MemoryGame → MemoryGame → Prop where
  | click (g : MemoryGame) (now : Rat) (pos : Int × Int) :
      Step g (handle_card_click g now pos)
  | tick (g : MemoryGame) (dt : Rat) (h : 0 ≤ dt) :
      Step g (update g dt)
  | render (g : MemoryGame) (now : Rat) :
      Step g (draw g now)

/-- A freshly set-up game: `setup_game` on some key list, with the shuffle
being some permutation of the pair list. -/
def GameInit (g : MemoryGame) : Prop :=
  ∃ image_keys shuffled : List Nat,
    shuffled.Perm (image_pairs image_keys) ∧ g = setup_game image_keys shuffled

/-- States reachable within a single game. -/
def Reachable (g : MemoryGame) : Prop :=
  ∃ g0, GameInit g0 ∧ Relation.ReflTransGen Step g0 g

/-- Position is inside the 4x4 grid. -/
def inBounds (rc : Nat × Nat) : Prop := rc.1 < GRID_SIZE ∧ rc.2 < GRID_SIZE

instance (rc : Nat × Nat) : Decidable (inBounds rc) := by
  unfold inBounds; infer_instance

/-- Position indexes an actual cell of `cards`. -/
def inGrid (cards : List (List Card)) (rc : Nat × Nat) : Prop :=
  rc.1 < cards.length ∧ rc.2 < (cards.getD rc.1 []).length

instance (cards : List (List Card)) (rc : Nat × Nat) :
    Decidable (inGrid cards rc) := by
  unfold inGrid; infer_instance

/-- The grid is a 4x4 arrangement. -/
def gridShape (cards : List (List Card)) : Prop :=
  cards.length = GRID_SIZE ∧ ∀ row ∈ cards, row.length = GRID_SIZE

/-- The conjunction of facts preserved by every in-game operation.  It
records: the grid stays 4x4; `revealed_cards` has length 2 exactly while a
mismatch is pending and length at most 1 otherwise; revealed positions are
in bounds, point at cards that are mid-flip or face-up, and are pairwise
distinct; the win flag holds iff every cell is matched; a won game has no
pending reveals; and flip progress never goes negative. -/
structure Inv (g : MemoryGame) : Prop where
  shape : gridShape g.cards
  rev_two : g.showing_mismatch = true → g.revealed_cards.length = 2
  rev_one : g.showing_mismatch = false → g.revealed_cards.length ≤ 1
  rev_ok : ∀ rc ∈ g.revealed_cards, inBounds rc ∧
      ((getCard g.cards rc).state = CardState.flipping ∨
       (getCard g.cards rc).state = CardState.revealed)
  rev_nd : g.revealed_cards.Nodup
  won_iff : g.game_won = true ↔
      ∀ rc : Nat × Nat, inBounds rc →
        (getCard g.cards rc).state = CardState.matched
  won_rev : g.game_won = true → g.revealed_cards = []
  prog : ∀ rc : Nat × Nat, 0 ≤ (getCard g.cards rc).flip_animation_progress

/-- One input to the running game, used to build concrete executions. -/
inductive Act where
  | click (now : Rat) (pos : Int × Int)
  | tick (dt : Rat)
  | render (now : Rat)
deriving Repr

/-- Dispatch of one `Act`, as the source's main loop does. -/
def applyAct (g : MemoryGame) : Act → MemoryGame
  | Act.click now pos => handle_card_click g now pos
  | Act.tick dt => update g dt
  | Act.render now => draw g now

/-- Play a sequence of inputs. -/
def run (g : MemoryGame) (acts : List Act) : MemoryGame :=
  acts.foldl applyAct g

/-- An `Act` the loop can actually produce (`dt` from `clock.tick` is
nonnegative). -/
def actOK : Act → Prop
  | Act.tick dt => 0 ≤ dt
  | _ => True

instance : DecidablePred actOK := by
  intro a
  cases a <;> unfold actOK <;> infer_instance

/-- The precondition under which a click at `pos` reveals the second card
of a pair: the guards of `handle_card_click` pass, the clicked cell holds
a hidden card, and exactly one card is already revealed. -/
def second_reveal_click (g : MemoryGame) (pos : Int × Int) : Bool :=
  !g.game_won && !g.showing_mismatch &&
    (match find_clicked_cell pos with
     | some rc => decide ((getCard g.cards rc).state = CardState.hidden) &&
         decide (g.revealed_cards.length = 1)
     | none => false)

/-- The image ids of all grid cells in row-major order. -/
def grid_ids (cards : List (List Card)) : List Nat :=
  (cards.map (fun row => row.map (fun c => c.image_id))).flatten

/-- A concrete key list for sample games: 8 distinct ids. -/
def demoKeys : List Nat := [0, 1, 2, 3, 4, 5, 6, 7]

/-- A sample fresh game with the identity shuffle: the grid ids are
`[[0,1,2,3],[4,5,6,7],[0,1,2,3],[4,5,6,7]]`, so cell `(r, c)` pairs with
cell `(r+2, c)`. -/
def demoStart : MemoryGame := setup_game demoKeys (image_pairs demoKeys)

/-- Pixel positions hitting the 16 cells pair by pair: the 8 clicks-pairs
that win `demoStart`. -/
def winActs : List Act :=
  [Act.click 0 (5, 105), Act.click 0 (5, 325),
   Act.click 0 (115, 105), Act.click 0 (115, 325),
   Act.click 0 (225, 105), Act.click 0 (225, 325),
   Act.click 0 (335, 105), Act.click 0 (335, 325),
   Act.click 0 (5, 215), Act.click 0 (5, 435),
   Act.click 0 (115, 215), Act.click 0 (115, 435),
   Act.click 0 (225, 215), Act.click 0 (225, 435),
   Act.click 0 (335, 215), Act.click 0 (335, 435)]

/-- The won game, with no draw having happened since the win. -/
def demoWon : MemoryGame := run demoStart winActs

/-- `demoStart` after one click on cell `(0,0)`. -/
def demoOneFlip : MemoryGame := run demoStart [Act.click 0 (5, 105)]

/-- `demoStart` after clicks on `(0,0)` and `(0,1)`: a pending mismatch. -/
def demoMismatch : MemoryGame :=
  run demoStart [Act.click 0 (5, 105), Act.click 0 (115, 105)]

/-- `demoStart` after clicks on `(0,0)` and `(2,0)`: one matched pair. -/
def demoMatched : MemoryGame :=
  run demoStart [Act.click 0 (5, 105), Act.click 0 (5, 325)]

/-! ### Basic list lemmas for the grid representation -/

theorem length_modifyNth {α : Type} (f : α → α) :
    ∀ (i : Nat) (l : List α), (modifyNth f i l).length = l.length := by
  intro i l
  induction l generalizing i with
  | nil => cases i <;> rfl
  | cons a l ih =>
    cases i with
    | zero => rfl
    | succ n => simp [modifyNth, ih n]

theorem getD_modifyNth {α : Type} (f : α → α) (d : α) :
    ∀ (l : List α) (i j : Nat),
      (modifyNth f i l).getD j d =
        if i = j ∧ j < l.length then f (l.getD j d) else l.getD j d := by
  intro l
  induction l with
  | nil => intro i j; cases i <;> simp [modifyNth]
  | cons a l ih =>
    intro i j
    cases i with
    | zero =>
      cases j with
      | zero => simp [modifyNth]
      | succ m => simp [modifyNth]
    | succ n =>
      cases j with
      | zero => simp [modifyNth]
      | succ m =>
        simp only [modifyNth, List.getD_cons_succ, ih, List.length_cons]
        by_cases h : n = m ∧ m < l.length
        · rw [if_pos h, if_pos (by omega)]
        · rw [if_neg h, if_neg (by omega)]

theorem getD_map_fd {α β : Type} (f : α → β) (d : α) :
    ∀ (l : List α) (i : Nat), (l.map f).getD i (f d) = f (l.getD i d) := by
  intro l
  induction l with
  | nil => intro i; simp
  | cons a l ih =>
    intro i
    cases i with
    | zero => simp
    | succ n => simp [ih n]

/-! ### Grid shape and cell access -/

theorem getD_eq_getElem {α : Type} (d : α) :
    ∀ (l : List α) (i : Nat) (h : i < l.length), l.getD i d = l[i] := by
  intro l
  induction l with
  | nil => intro i h; simp at h
  | cons a l ih =>
    intro i h
    cases i with
    | zero => rfl
    | succ n => simpa using ih n (by simpa using h)

theorem row_length_of_gridShape {cards : List (List Card)}
    (h : gridShape cards) {r : Nat} (hr : r < GRID_SIZE) :
    (cards.getD r []).length = GRID_SIZE := by
  have hrlen : r < cards.length := by rw [h.1]; exact hr
  rw [getD_eq_getElem _ _ _ hrlen]
  exact h.2 _ (List.getElem_mem hrlen)

theorem inGrid_iff_inBounds {cards : List (List Card)} (h : gridShape cards)
    (rc : Nat × Nat) : inGrid cards rc ↔ inBounds rc := by
  constructor
  · rintro ⟨h1, h2⟩
    have hr : rc.1 < GRID_SIZE := by rw [← h.1]; exact h1
    refine ⟨hr, ?_⟩
    rw [row_length_of_gridShape h hr] at h2
    exact h2
  · rintro ⟨h1, h2⟩
    refine ⟨by rw [h.1]; exact h1, ?_⟩
    rw [row_length_of_gridShape h h1]
    exact h2

/-- Reading after a single-cell functional update. -/
theorem getCard_modifyCard (cards : List (List Card)) (rc rc' : Nat × Nat)
    (f : Card → Card) :
    getCard (modifyCard cards rc f) rc' =
      if rc = rc' ∧ inGrid cards rc' then f (getCard cards rc')
      else getCard cards rc' := by
  unfold getCard modifyCard inGrid
  rw [getD_modifyNth]
  by_cases h1 : rc.1 = rc'.1 ∧ rc'.1 < cards.length
  · rw [if_pos h1, getD_modifyNth]
    by_cases h2 : rc.2 = rc'.2 ∧ rc'.2 < (cards.getD rc'.1 []).length
    · rw [if_pos h2, if_pos]
      exact ⟨Prod.ext h1.1 h2.1, h1.2, h2.2⟩
    · rw [if_neg h2, if_neg]
      rintro ⟨hrc, hb1, hb2⟩
      exact h2 ⟨by rw [hrc], hb2⟩
  · rw [if_neg h1, if_neg]
    rintro ⟨hrc, hb1, hb2⟩
    exact h1 ⟨by rw [hrc], hb1⟩

theorem getCard_modifyCard_ne {cards : List (List Card)} {rc rc' : Nat × Nat}
    (f : Card → Card) (h : rc ≠ rc') :
    getCard (modifyCard cards rc f) rc' = getCard cards rc' := by
  rw [getCard_modifyCard, if_neg (fun hc => h hc.1)]

theorem getCard_modifyCard_self {cards : List (List Card)} {rc : Nat × Nat}
    (f : Card → Card) (h : inGrid cards rc) :
    getCard (modifyCard cards rc f) rc = f (getCard cards rc) := by
  rw [getCard_modifyCard, if_pos ⟨rfl, h⟩]

theorem gridShape_modifyCard {cards : List (List Card)} (rc : Nat × Nat)
    (f : Card → Card) (h : gridShape cards) :
    gridShape (modifyCard cards rc f) := by
  unfold gridShape modifyCard
  constructor
  · rw [length_modifyNth]; exact h.1
  · intro row hrow
    have hmem : row ∈ cards ∨ ∃ y ∈ cards, row = modifyNth f rc.2 y := by
      clear h
      generalize cards = l at hrow
      generalize rc.1 = i at hrow
      induction l generalizing i with
      | nil => cases i <;> simp [modifyNth] at hrow
      | cons a l ih =>
        cases i with
        | zero =>
          rcases (List.mem_cons).1 hrow with h | h
          · exact Or.inr ⟨a, List.mem_cons_self a l, h⟩
          · exact Or.inl (List.mem_cons_of_mem a h)
        | succ n =>
          rcases (List.mem_cons).1 hrow with h | h
          · exact Or.inl (h ▸ List.mem_cons_self a l)
          · rcases ih n h with h' | ⟨y, hy, hyeq⟩
            · exact Or.inl (List.mem_cons_of_mem a h')
            · exact Or.inr ⟨y, List.mem_cons_of_mem a hy, hyeq⟩
    rcases hmem with hrow' | ⟨y, hy, hyeq⟩
    · exact h.2 row hrow'
    · rw [hyeq, length_modifyNth]; exact h.2 y hy

theorem inGrid_modifyCard {cards : List (List Card)} {p rc : Nat × Nat}
    (f : Card → Card) :
    inGrid (modifyCard cards p f) rc ↔ inGrid cards rc := by
  unfold inGrid modifyCard
  rw [length_modifyNth, getD_modifyNth]
  by_cases h : p.1 = rc.1 ∧ rc.1 < cards.length
  · rw [if_pos h, length_modifyNth]
  · rw [if_neg h]

theorem getD_out {α : Type} (d : α) :
    ∀ (l : List α) (i : Nat), l.length ≤ i → l.getD i d = d := by
  intro l
  induction l with
  | nil => intro i _; cases i <;> rfl
  | cons a l ih =>
    intro i h
    cases i with
    | zero => simp at h
    | succ n => simpa using ih n (by simpa using h)

theorem getCard_not_inGrid {cards : List (List Card)} {rc : Nat × Nat}
    (h : ¬ inGrid cards rc) : getCard cards rc = dummyCard := by
  unfold getCard
  unfold inGrid at h
  push_neg at h
  rcases Nat.lt_or_ge rc.1 cards.length with h1 | h1
  · rw [getD_out _ _ _ (h h1)]
  · rw [getD_out _ _ _ h1]
    rfl

/-! ### Per-card animation step lemmas -/

theorem step_card_of_hidden {c : Card} (dt : Rat)
    (h : c.state = CardState.hidden) : step_card dt c = c := by
  simp [step_card, update_flip_animation, update_match_animation, h]

theorem step_card_dummyCard (dt : Rat) : step_card dt dummyCard = dummyCard :=
  step_card_of_hidden dt rfl

theorem step_card_of_revealed {c : Card} (dt : Rat)
    (h : c.state = CardState.revealed) : step_card dt c = c := by
  simp [step_card, update_flip_animation, update_match_animation, h]

theorem step_card_state_matched (dt : Rat) (c : Card) :
    (step_card dt c).state = CardState.matched ↔
      c.state = CardState.matched := by
  cases hc : c.state
  · rw [step_card_of_hidden dt hc, hc]
  · rw [step_card_of_revealed dt hc, hc]
  · by_cases hq : (1:Rat) ≤ c.match_animation_progress + dt * 4 <;>
      simp [step_card, update_flip_animation, update_match_animation, hc, hq]
  · by_cases hp : (1:Rat) ≤ c.flip_animation_progress + dt * 8 <;>
      simp [step_card, update_flip_animation, update_match_animation, hc, hp]

theorem step_card_state_fr {c : Card} (dt : Rat)
    (h : c.state = CardState.flipping ∨ c.state = CardState.revealed) :
    (step_card dt c).state = CardState.flipping ∨
      (step_card dt c).state = CardState.revealed := by
  rcases h with h | h
  · by_cases hp : (1:Rat) ≤ c.flip_animation_progress + dt * 8
    · right
      simp [step_card, update_flip_animation, update_match_animation, h, hp]
    · left
      simp [step_card, update_flip_animation, update_match_animation, h, hp]
  · right
    rw [step_card_of_revealed dt h, h]

theorem step_card_image_id (dt : Rat) (c : Card) :
    (step_card dt c).image_id = c.image_id := by
  cases hc : c.state
  · rw [step_card_of_hidden dt hc]
  · rw [step_card_of_revealed dt hc]
  · by_cases hq : (1:Rat) ≤ c.match_animation_progress + dt * 4 <;>
      simp [step_card, update_flip_animation, update_match_animation, hc, hq]
  · by_cases hp : (1:Rat) ≤ c.flip_animation_progress + dt * 8 <;>
      simp [step_card, update_flip_animation, update_match_animation, hc, hp]

theorem step_card_prog {c : Card} {dt : Rat} (hdt : 0 ≤ dt)
    (h : 0 ≤ c.flip_animation_progress) :
    0 ≤ (step_card dt c).flip_animation_progress := by
  cases hc : c.state
  · rw [step_card_of_hidden dt hc]; exact h
  · rw [step_card_of_revealed dt hc]; exact h
  · by_cases hq : (1:Rat) ≤ c.match_animation_progress + dt * 4 <;>
      simpa [step_card, update_flip_animation, update_match_animation, hc, hq]
        using h
  · by_cases hp : (1:Rat) ≤ c.flip_animation_progress + dt * 8
    · simp [step_card, update_flip_animation, update_match_animation, hc, hp]
    · have : (0:Rat) ≤ c.flip_animation_progress + dt * 8 := by nlinarith
      simpa [step_card, update_flip_animation, update_match_animation, hc, hp]
        using this

theorem step_card_flip_done {c : Card} {dt : Rat}
    (h : c.state = CardState.flipping) (hp : 0 ≤ c.flip_animation_progress)
    (hdt : 1 ≤ dt * 8) :
    (step_card dt c).state = CardState.revealed := by
  have hge : (1:Rat) ≤ c.flip_animation_progress + dt * 8 := by nlinarith
  simp [step_card, update_flip_animation, update_match_animation, h, hge]

/-! ### Whole-grid update lemmas -/

theorem getCard_update_cards (cards : List (List Card)) (dt : Rat)
    (rc : Nat × Nat) :
    getCard (update_cards cards dt) rc = step_card dt (getCard cards rc) := by
  unfold getCard update_cards
  have h1 : (cards.map (fun row => row.map (step_card dt))).getD rc.1 [] =
      (cards.getD rc.1 []).map (step_card dt) := by
    simpa using
      getD_map_fd (fun row : List Card => row.map (step_card dt)) [] cards rc.1
  rw [h1]
  have h2 := getD_map_fd (step_card dt) dummyCard (cards.getD rc.1 []) rc.2
  rw [step_card_dummyCard] at h2
  exact h2

theorem gridShape_update_cards {cards : List (List Card)}
    (h : gridShape cards) (dt : Rat) : gridShape (update_cards cards dt) := by
  constructor
  · simpa [update_cards] using h.1
  · intro row hrow
    simp only [update_cards, List.mem_map] at hrow
    obtain ⟨row0, hrow0, rfl⟩ := hrow
    simpa using h.2 row0 hrow0

theorem hideCards_cons (cards : List (List Card)) (p : Nat × Nat)
    (L : List (Nat × Nat)) :
    hideCards cards (p :: L) =
      hideCards (modifyCard cards p (fun c => { c with state := CardState.hidden })) L :=
  rfl

theorem getCard_hideCards_not_mem :
    ∀ (L : List (Nat × Nat)) (cards : List (List Card)) (rc : Nat × Nat),
      rc ∉ L → getCard (hideCards cards L) rc = getCard cards rc := by
  intro L
  induction L with
  | nil => intro cards rc _; rfl
  | cons p L ih =>
    intro cards rc h
    rw [hideCards_cons, ih _ _ (fun hm => h (List.mem_cons_of_mem p hm)),
      getCard_modifyCard_ne _
        (fun he => h (by rw [← he]; exact List.mem_cons_self p L))]

theorem getCard_hideCards_mem :
    ∀ (L : List (Nat × Nat)) (cards : List (List Card)) (rc : Nat × Nat),
      L.Nodup → rc ∈ L → inGrid cards rc →
      getCard (hideCards cards L) rc =
        { getCard cards rc with state := CardState.hidden } := by
  intro L
  induction L with
  | nil => intro cards rc _ hm; simp at hm
  | cons p L ih =>
    intro cards rc hnd hm hg
    rcases List.mem_cons.1 hm with rfl | hm'
    · rw [hideCards_cons,
        getCard_hideCards_not_mem _ _ _ (List.Nodup.not_mem hnd),
        getCard_modifyCard_self _ hg]
    · have hne : p ≠ rc := fun he => (List.Nodup.not_mem hnd) (he ▸ hm')
      rw [hideCards_cons,
        ih _ _ ((List.nodup_cons.1 hnd).2) hm' ((inGrid_modifyCard _).2 hg),
        getCard_modifyCard_ne _ hne]

theorem flip_progress_hideCards :
    ∀ (L : List (Nat × Nat)) (cards : List (List Card)) (rc : Nat × Nat),
      (getCard (hideCards cards L) rc).flip_animation_progress =
        (getCard cards rc).flip_animation_progress := by
  intro L
  induction L with
  | nil => intro cards rc; rfl
  | cons p L ih =>
    intro cards rc
    rw [hideCards_cons, ih, getCard_modifyCard]
    split <;> rfl

theorem gridShape_hideCards :
    ∀ (L : List (Nat × Nat)) {cards : List (List Card)},
      gridShape cards → gridShape (hideCards cards L) := by
  intro L
  induction L with
  | nil => intro cards h; exact h
  | cons p L ih =>
    intro cards h
    rw [hideCards_cons]
    exact ih (gridShape_modifyCard _ _ h)

/-! ### `all_matched` characterised pointwise -/

theorem all_matched_iff {cards : List (List Card)} (h : gridShape cards) :
    all_matched cards = true ↔
      ∀ rc : Nat × Nat, inBounds rc →
        (getCard cards rc).state = CardState.matched := by
  unfold all_matched
  rw [List.all_eq_true]
  constructor
  · intro hall rc hrc
    have hr : rc.1 < cards.length := by rw [h.1]; exact hrc.1
    have hrow : cards.getD rc.1 [] ∈ cards := by
      rw [getD_eq_getElem _ _ _ hr]; exact List.getElem_mem hr
    have hc : rc.2 < (cards.getD rc.1 []).length := by
      rw [row_length_of_gridShape h hrc.1]; exact hrc.2
    have hcard : (cards.getD rc.1 []).getD rc.2 dummyCard ∈ cards.getD rc.1 [] := by
      rw [getD_eq_getElem _ _ _ hc]; exact List.getElem_mem hc
    have := (List.all_eq_true).1 (hall _ hrow) _ hcard
    simpa [getCard] using this
  · intro hpt row hrow
    rw [List.all_eq_true]
    intro c hc
    obtain ⟨r, hr, hrowr⟩ := List.getElem_of_mem hrow
    obtain ⟨cc, hcc, hccc⟩ := List.getElem_of_mem hc
    have hr4 : r < GRID_SIZE := by rw [← h.1]; exact hr
    have hrow4 : row.length = GRID_SIZE := h.2 row hrow
    have hcc4 : cc < GRID_SIZE := by rw [← hrow4]; exact hcc
    have := hpt (r, cc) ⟨hr4, hcc4⟩
    simp only [getCard] at this
    rw [getD_eq_getElem _ _ _ hr] at this
    simp only [hrowr] at this
    rw [getD_eq_getElem _ _ _ hcc, hccc] at this
    simpa using this

/-! ### Click-target geometry -/

theorem find_clicked_cell_inBounds {pos : Int × Int} {rc : Nat × Nat}
    (h : find_clicked_cell pos = some rc) : inBounds rc := by
  unfold find_clicked_cell at h
  have hmem := List.mem_of_find?_eq_some h
  simp only [List.mem_flatMap, List.mem_map, List.mem_range] at hmem
  obtain ⟨r, hr, c, hc, hrc⟩ := hmem
  rw [← hrc]
  exact ⟨hr, hc⟩

/-! ### The freshly set-up game -/

theorem getD_range_map {α : Type} (f : Nat → α) (d : α) {n i : Nat}
    (h : i < n) : ((List.range n).map f).getD i d = f i := by
  rw [getD_eq_getElem _ _ _ (by simpa using h)]
  simp

theorem shape_setup (keys shuffled : List Nat) :
    gridShape (setup_game keys shuffled).cards := by
  constructor
  · simp [setup_game]
  · intro row hrow
    simp only [setup_game, List.mem_map, List.mem_range] at hrow
    obtain ⟨r, hr, rfl⟩ := hrow
    simp

theorem getCard_setup (keys shuffled : List Nat) {rc : Nat × Nat}
    (h : inBounds rc) :
    getCard (setup_game keys shuffled).cards rc =
      { image_id := shuffled.getD (GRID_SIZE * rc.1 + rc.2) 0,
        row := rc.1, col := rc.2, state := CardState.hidden,
        flip_animation_progress := 0, match_animation_progress := 0 } := by
  unfold getCard setup_game
  simp only
  rw [getD_range_map _ _ h.1, getD_range_map _ _ h.2]

theorem state_setup (keys shuffled : List Nat) (rc : Nat × Nat) :
    (getCard (setup_game keys shuffled).cards rc).state = CardState.hidden := by
  by_cases h : inBounds rc
  · rw [getCard_setup keys shuffled h]
  · rw [getCard_not_inGrid]
    · rfl
    · rw [inGrid_iff_inBounds (shape_setup keys shuffled)]
      exact h

theorem prog_setup (keys shuffled : List Nat) (rc : Nat × Nat) :
    (getCard (setup_game keys shuffled).cards rc).flip_animation_progress
      = 0 := by
  by_cases h : inBounds rc
  · rw [getCard_setup keys shuffled h]
  · rw [getCard_not_inGrid]
    · rfl
    · rw [inGrid_iff_inBounds (shape_setup keys shuffled)]
      exact h

/-! ### The reachability invariant -/

theorem inv_setup (keys shuffled : List Nat) :
    Inv (setup_game keys shuffled) := by
  refine ⟨shape_setup keys shuffled, ?_, ?_, ?_, ?_, ?_, ?_, ?_⟩
  · intro h; simp [setup_game] at h
  · intro _; simp [setup_game]
  · intro rc hrc; simp [setup_game] at hrc
  · simp [setup_game]
  · constructor
    · intro h; simp [setup_game] at h
    · intro hall
      have := hall (0, 0) (by constructor <;> decide)
      rw [state_setup] at this
      exact absurd this (by decide)
  · intro h; simp [setup_game] at h
  · intro rc
    rw [prog_setup]

/-! ### Field bookkeeping for `check_win` and `draw` -/

theorem check_win_cards (g : MemoryGame) : (check_win g).cards = g.cards := by
  unfold check_win; split <;> rfl

theorem check_win_revealed (g : MemoryGame) :
    (check_win g).revealed_cards = g.revealed_cards := by
  unfold check_win; split <;> rfl

theorem check_win_moves (g : MemoryGame) : (check_win g).moves = g.moves := by
  unfold check_win; split <;> rfl

theorem check_win_showing (g : MemoryGame) :
    (check_win g).showing_mismatch = g.showing_mismatch := by
  unfold check_win; split <;> rfl

theorem check_win_timer (g : MemoryGame) :
    (check_win g).mismatch_timer = g.mismatch_timer := by
  unfold check_win; split <;> rfl

theorem check_win_game_won (g : MemoryGame) :
    (check_win g).game_won = (g.game_won || all_matched g.cards) := by
  unfold check_win
  cases hb : all_matched g.cards
  · simp [hb]
  · simp [hb]

theorem inv_draw (g : MemoryGame) (now : Rat) (hInv : Inv g) :
    Inv (draw g now) := by
  unfold draw draw_ui
  split
  · exact ⟨hInv.shape, hInv.rev_two, hInv.rev_one, hInv.rev_ok, hInv.rev_nd,
      hInv.won_iff, hInv.won_rev, hInv.prog⟩
  · exact hInv

/-! ### Characterisation of `reveal_card` by the number of pending reveals -/

theorem reveal_card_of_nil {g : MemoryGame} (now : Rat) (rc : Nat × Nat)
    (h : g.revealed_cards = []) :
    reveal_card g now rc =
      { g with
        start_time := if g.start_time = none then some now else g.start_time,
        cards := modifyCard g.cards rc start_flip_animation,
        revealed_cards := [rc] } := by
  unfold reveal_card
  rw [h]
  rfl

theorem reveal_card_of_one_eq {g : MemoryGame} (now : Rat) (rc p1 : Nat × Nat)
    (h : g.revealed_cards = [p1])
    (hid : (getCard (modifyCard g.cards rc start_flip_animation) p1).image_id =
        (getCard (modifyCard g.cards rc start_flip_animation) rc).image_id) :
    reveal_card g now rc =
      check_win
        { g with
          start_time := if g.start_time = none then some now else g.start_time,
          cards :=
            modifyCard
              (modifyCard (modifyCard g.cards rc start_flip_animation) p1
                matchCard)
              rc matchCard,
          revealed_cards := [],
          moves := g.moves + 1 } := by
  unfold reveal_card
  rw [h]
  simp only [List.cons_append, List.nil_append]
  rw [if_pos hid]

theorem reveal_card_of_one_ne {g : MemoryGame} (now : Rat) (rc p1 : Nat × Nat)
    (h : g.revealed_cards = [p1])
    (hid : ¬ ((getCard (modifyCard g.cards rc start_flip_animation) p1).image_id =
        (getCard (modifyCard g.cards rc start_flip_animation) rc).image_id)) :
    reveal_card g now rc =
      { g with
        start_time := if g.start_time = none then some now else g.start_time,
        cards := modifyCard g.cards rc start_flip_animation,
        revealed_cards := [p1, rc],
        moves := g.moves + 1,
        showing_mismatch := true,
        mismatch_timer := 1 } := by
  unfold reveal_card
  rw [h]
  simp only [List.cons_append, List.nil_append]
  rw [if_neg hid]

/-! ### Flip-progress bookkeeping -/

theorem flip_progress_modify_matchCard (cards : List (List Card))
    (p q : Nat × Nat) :
    (getCard (modifyCard cards p matchCard) q).flip_animation_progress =
      (getCard cards q).flip_animation_progress := by
  rw [getCard_modifyCard]
  split <;> rfl

theorem flip_progress_modify_start_flip (cards : List (List Card))
    (p q : Nat × Nat)
    (h : 0 ≤ (getCard cards q).flip_animation_progress) :
    0 ≤ (getCard (modifyCard cards p start_flip_animation)
          q).flip_animation_progress := by
  rw [getCard_modifyCard]
  split
  · simp [start_flip_animation]
  · exact h

/-- `check_win` establishes the invariant whenever it is called on a state
with no pending reveals, no pending mismatch and the win flag still
clear — exactly the states it is called on by `reveal_card`. -/
theorem inv_check_win {g : MemoryGame} (hwon : g.game_won = false)
    (hrev : g.revealed_cards = []) (hsm : g.showing_mismatch = false)
    (hshape : gridShape g.cards)
    (hprog : ∀ rc : Nat × Nat,
      0 ≤ (getCard g.cards rc).flip_animation_progress) :
    Inv (check_win g) := by
  refine ⟨?_, ?_, ?_, ?_, ?_, ?_, ?_, ?_⟩
  · rw [check_win_cards]; exact hshape
  · intro h
    rw [check_win_showing, hsm] at h
    simp at h
  · intro _
    rw [check_win_revealed, hrev]
    simp
  · intro q hq
    rw [check_win_revealed, hrev] at hq
    simp at hq
  · rw [check_win_revealed, hrev]
    simp
  · rw [check_win_game_won, check_win_cards, hwon, Bool.false_or]
    exact all_matched_iff hshape
  · intro _
    rw [check_win_revealed, hrev]
  · intro q
    rw [check_win_cards]
    exact hprog q

/-- `reveal_card` preserves the invariant when called the way
`handle_card_click` calls it: game not won, no mismatch pending, on an
in-bounds hidden card. -/
theorem inv_reveal {g : MemoryGame} (now : Rat) {rc : Nat × Nat}
    (hInv : Inv g) (hwon : g.game_won = false)
    (hsm : g.showing_mismatch = false) (hb : inBounds rc)
    (hh : (getCard g.cards rc).state = CardState.hidden) :
    Inv (reveal_card g now rc) := by
  have hlen : g.revealed_cards.length ≤ 1 := hInv.rev_one hsm
  have hgrid : inGrid g.cards rc := (inGrid_iff_inBounds hInv.shape rc).2 hb
  have hself : getCard (modifyCard g.cards rc start_flip_animation) rc =
      start_flip_animation (getCard g.cards rc) :=
    getCard_modifyCard_self _ hgrid
  have hshape1 : gridShape (modifyCard g.cards rc start_flip_animation) :=
    gridShape_modifyCard rc _ hInv.shape
  cases hrevl : g.revealed_cards with
  | nil =>
    rw [reveal_card_of_nil now rc hrevl]
    refine ⟨hshape1, ?_, ?_, ?_, ?_, ?_, ?_, ?_⟩
    · intro h
      simp only at h
      rw [hsm] at h
      simp at h
    · intro _
      simp
    · intro q hq
      simp only [List.mem_singleton] at hq
      subst hq
      refine ⟨hb, Or.inl ?_⟩
      simp only
      rw [hself]
      rfl
    · simp
    · constructor
      · intro h
        simp only at h
        rw [hwon] at h
        simp at h
      · intro hall
        have := hall rc hb
        simp only at this
        rw [hself] at this
        exact absurd this (by simp [start_flip_animation])
    · intro h
      simp only at h
      rw [hwon] at h
      simp at h
    · intro q
      simp only
      exact flip_progress_modify_start_flip _ _ _ (hInv.prog q)
  | cons p1 rest =>
    cases rest with
    | cons p2 rest2 =>
      rw [hrevl] at hlen
      simp at hlen
    | nil =>
      obtain ⟨hb1, hfr1⟩ := hInv.rev_ok p1 (by rw [hrevl]; exact List.mem_cons_self p1 [])
      have hne : p1 ≠ rc := by
        intro he
        rw [he] at hfr1
        rcases hfr1 with h1 | h1 <;> rw [hh] at h1 <;> simp at h1
      have hne' : rc ≠ p1 := fun he => hne he.symm
      have hgetp1 : getCard (modifyCard g.cards rc start_flip_animation) p1 =
          getCard g.cards p1 := getCard_modifyCard_ne _ hne'
      by_cases hid :
          (getCard (modifyCard g.cards rc start_flip_animation) p1).image_id =
          (getCard (modifyCard g.cards rc start_flip_animation) rc).image_id
      · rw [reveal_card_of_one_eq now rc p1 hrevl hid]
        refine inv_check_win hwon rfl hsm ?_ ?_
        · exact gridShape_modifyCard rc _
            (gridShape_modifyCard p1 _ hshape1)
        · intro q
          simp only
          rw [flip_progress_modify_matchCard, flip_progress_modify_matchCard]
          exact flip_progress_modify_start_flip _ _ _ (hInv.prog q)
      · rw [reveal_card_of_one_ne now rc p1 hrevl hid]
        refine ⟨hshape1, ?_, ?_, ?_, ?_, ?_, ?_, ?_⟩
        · intro _
          rfl
        · intro h
          simp at h
        · intro q hq
          simp only [List.mem_cons, List.not_mem_nil, or_false] at hq
          rcases hq with rfl | rfl
          · refine ⟨hb1, ?_⟩
            simp only
            rw [hgetp1]
            exact hfr1
          · refine ⟨hb, Or.inl ?_⟩
            simp only
            rw [hself]
            rfl
        · simp [hne]
        · constructor
          · intro h
            simp only at h
            rw [hwon] at h
            simp at h
          · intro hall
            have := hall rc hb
            simp only at this
            rw [hself] at this
            exact absurd this (by simp [start_flip_animation])
        · intro h
          simp only at h
          rw [hwon] at h
          simp at h
        · intro q
          simp only
          exact flip_progress_modify_start_flip _ _ _ (hInv.prog q)

theorem inv_handle_card_click (g : MemoryGame) (now : Rat) (pos : Int × Int)
    (hInv : Inv g) : Inv (handle_card_click g now pos) := by
  unfold handle_card_click
  split
  · exact hInv
  case isFalse hguard =>
    simp only [Bool.or_eq_true, not_or, Bool.not_eq_true] at hguard
    split
    · exact hInv
    case h_2 rc hfind =>
      split
      case isTrue hh =>
        exact inv_reveal now hInv hguard.1 hguard.2
          (find_clicked_cell_inBounds hfind) hh
      case isFalse => exact hInv

theorem inv_update {g : MemoryGame} {dt : Rat} (hdt : 0 ≤ dt) (hInv : Inv g) :
    Inv (update g dt) := by
  have hshape1 : gridShape (update_cards g.cards dt) :=
    gridShape_update_cards hInv.shape dt
  have hget : ∀ q, getCard (update_cards g.cards dt) q =
      step_card dt (getCard g.cards q) := getCard_update_cards g.cards dt
  unfold update
  simp only
  split
  case isFalse hsmf =>
    have hsm : g.showing_mismatch = false := by simpa using hsmf
    refine ⟨hshape1, ?_, ?_, ?_, ?_, ?_, ?_, ?_⟩
    · intro h
      simp only at h
      rw [hsm] at h
      simp at h
    · intro _
      exact hInv.rev_one hsm
    · intro q hq
      simp only at hq
      obtain ⟨hbq, hfr⟩ := hInv.rev_ok q hq
      refine ⟨hbq, ?_⟩
      simp only
      rw [hget q]
      exact step_card_state_fr dt hfr
    · exact hInv.rev_nd
    · constructor
      · intro h q hq
        simp only
        rw [hget q, step_card_state_matched]
        exact hInv.won_iff.1 h q hq
      · intro hall
        refine hInv.won_iff.2 (fun q hq => ?_)
        have := hall q hq
        simp only at this
        rw [hget q] at this
        exact (step_card_state_matched dt _).1 this
    · exact hInv.won_rev
    · intro q
      simp only
      rw [hget q]
      exact step_card_prog hdt (hInv.prog q)
  case isTrue hsmt =>
    have hsm : g.showing_mismatch = true := by simpa using hsmt
    have hlen2 : g.revealed_cards.length = 2 := hInv.rev_two hsm
    have hwon : g.game_won = false := by
      cases hgw : g.game_won
      · rfl
      · exfalso
        rw [hInv.won_rev hgw] at hlen2
        simp at hlen2
    split
    case isFalse ht =>
      refine ⟨hshape1, ?_, ?_, ?_, ?_, ?_, ?_, ?_⟩
      · intro _
        exact hlen2
      · intro h
        simp only at h
        rw [hsm] at h
        simp at h
      · intro q hq
        simp only at hq
        obtain ⟨hbq, hfr⟩ := hInv.rev_ok q hq
        refine ⟨hbq, ?_⟩
        simp only
        rw [hget q]
        exact step_card_state_fr dt hfr
      · exact hInv.rev_nd
      · constructor
        · intro h
          simp only at h
          rw [hwon] at h
          simp at h
        · intro hall
          obtain ⟨q1, q2, hq12⟩ := List.length_eq_two.1 hlen2
          obtain ⟨hbq1, hfr1⟩ := hInv.rev_ok q1
            (by rw [hq12]; exact List.mem_cons_self q1 [q2])
          have := hall q1 hbq1
          simp only at this
          rw [hget q1] at this
          rcases step_card_state_fr dt hfr1 with h1 | h1 <;>
            rw [this] at h1 <;> simp at h1
      · intro h
        simp only at h
        rw [hwon] at h
        simp at h
      · intro q
        simp only
        rw [hget q]
        exact step_card_prog hdt (hInv.prog q)
    case isTrue ht =>
      have hnd := hInv.rev_nd
      refine ⟨?_, ?_, ?_, ?_, ?_, ?_, ?_, ?_⟩
      · exact gridShape_hideCards _ hshape1
      · intro h
        simp at h
      · intro _
        simp
      · intro q hq
        simp only at hq
        simp at hq
      · simp
      · constructor
        · intro h
          simp only at h
          rw [hwon] at h
          simp at h
        · intro hall
          obtain ⟨q1, q2, hq12⟩ := List.length_eq_two.1 hlen2
          obtain ⟨hbq1, hfr1⟩ := hInv.rev_ok q1
            (by rw [hq12]; exact List.mem_cons_self q1 [q2])
          have hmem1 : q1 ∈ g.revealed_cards := by
            rw [hq12]; exact List.mem_cons_self q1 [q2]
          have hgrid1 : inGrid (update_cards g.cards dt) q1 :=
            (inGrid_iff_inBounds hshape1 q1).2 hbq1
          have hhide := getCard_hideCards_mem g.revealed_cards
            (update_cards g.cards dt) q1 hnd hmem1 hgrid1
          have := hall q1 hbq1
          simp only at this
          rw [hhide] at this
          simp at this
      · intro _
        rfl
      · intro q
        simp only
        rw [flip_progress_hideCards, hget q]
        exact step_card_prog hdt (hInv.prog q)

theorem inv_step {g g' : MemoryGame} (h : Step g g') (hInv : Inv g) :
    Inv g' := by
  cases h with
  | click now pos => exact inv_handle_card_click g now pos hInv
  | tick dt hdt => exact inv_update hdt hInv
  | render now => exact inv_draw g now hInv

theorem reachable_inv {g : MemoryGame} (h : Reachable g) : Inv g := by
  obtain ⟨g0, hinit, hsteps⟩ := h
  obtain ⟨keys, sh, hperm, rfl⟩ := hinit
  induction hsteps with
  | refl => exact inv_setup keys sh
  | tail hab hbc ih => exact inv_step hbc ih

theorem reachable_step {g g' : MemoryGame} (h : Reachable g) (hs : Step g g') :
    Reachable g' := by
  obtain ⟨g0, hinit, hsteps⟩ := h
  exact ⟨g0, hinit, hsteps.tail hs⟩

/-! ### Reachability of concrete executions -/

theorem step_applyAct (g : MemoryGame) (a : Act) (h : actOK a) :
    Step g (applyAct g a) := by
  cases a with
  | click now pos => exact Step.click g now pos
  | tick dt => exact Step.tick g dt h
  | render now => exact Step.render g now

theorem reachable_run :
    ∀ (acts : List Act) {g : MemoryGame}, Reachable g →
      (∀ a ∈ acts, actOK a) → Reachable (run g acts) := by
  intro acts
  induction acts with
  | nil =>
    intro g h _
    exact h
  | cons a acts ih =>
    intro g h hok
    exact ih
      (reachable_step h (step_applyAct g a (hok a (List.mem_cons_self a acts))))
      (fun b hb => hok b (List.mem_cons_of_mem a hb))

theorem reachable_init {g : MemoryGame} (h : GameInit g) : Reachable g :=
  ⟨g, h, Relation.ReflTransGen.refl⟩

theorem demoStart_reachable : Reachable demoStart :=
  reachable_init ⟨demoKeys, image_pairs demoKeys, List.Perm.refl _, rfl⟩

/-! ### Field bookkeeping for the game operations -/

theorem handle_card_click_of_won {g : MemoryGame} (h : g.game_won = true)
    (now : Rat) (pos : Int × Int) : handle_card_click g now pos = g := by
  unfold handle_card_click
  rw [h]
  rfl

theorem game_won_update (g : MemoryGame) (dt : Rat) :
    (update g dt).game_won = g.game_won := by
  unfold update
  simp only
  split
  · split <;> rfl
  · rfl

theorem moves_update (g : MemoryGame) (dt : Rat) :
    (update g dt).moves = g.moves := by
  unfold update
  simp only
  split
  · split <;> rfl
  · rfl

theorem cards_draw (g : MemoryGame) (now : Rat) :
    (draw g now).cards = g.cards := by
  unfold draw draw_ui
  split <;> rfl

theorem game_won_draw (g : MemoryGame) (now : Rat) :
    (draw g now).game_won = g.game_won := by
  unfold draw draw_ui
  split <;> rfl

/-- `update` while a mismatch is pending and the timer has not yet run
out: only animations and the timer advance. -/
theorem update_of_mismatch_pending {g : MemoryGame} (dt : Rat)
    (hsm : g.showing_mismatch = true) (ht : 0 < g.mismatch_timer - dt) :
    update g dt =
      { g with cards := update_cards g.cards dt,
               mismatch_timer := g.mismatch_timer - dt } := by
  unfold update
  simp only
  rw [if_pos hsm, if_neg (not_le.2 ht)]

/-- `update` when the mismatch timer runs out: the two revealed cards are
hidden again, the pending list is cleared and the mismatch flag drops. -/
theorem update_of_mismatch_timeout {g : MemoryGame} (dt : Rat)
    (hsm : g.showing_mismatch = true) (ht : g.mismatch_timer - dt ≤ 0) :
    update g dt =
      { g with
        cards := hideCards (update_cards g.cards dt) g.revealed_cards,
        revealed_cards := [],
        mismatch_timer := g.mismatch_timer - dt,
        showing_mismatch := false } := by
  unfold update
  simp only
  rw [if_pos hsm, if_pos ht]

/-- `update` with no mismatch pending only advances animations. -/
theorem update_of_no_mismatch {g : MemoryGame} (dt : Rat)
    (hsm : g.showing_mismatch = false) :
    update g dt = { g with cards := update_cards g.cards dt } := by
  unfold update
  simp only
  rw [if_neg (by rw [hsm]; simp)]

/-- The move counter of `reveal_card`: it increments exactly when the
reveal completes a pair. -/
theorem moves_reveal_card (g : MemoryGame) (now : Rat) (rc : Nat × Nat) :
    (reveal_card g now rc).moves =
      if g.revealed_cards.length = 1 then g.moves + 1 else g.moves := by
  cases hrevl : g.revealed_cards with
  | nil =>
    rw [reveal_card_of_nil now rc hrevl]
    simp
  | cons p1 rest =>
    cases rest with
    | nil =>
      by_cases hid :
          (getCard (modifyCard g.cards rc start_flip_animation) p1).image_id =
          (getCard (modifyCard g.cards rc start_flip_animation) rc).image_id
      · rw [reveal_card_of_one_eq now rc p1 hrevl hid, check_win_moves]
        simp
      · rw [reveal_card_of_one_ne now rc p1 hrevl hid]
        simp
    | cons p2 rest2 =>
      cases rest2 with
      | nil =>
        unfold reveal_card
        rw [hrevl]
        simp
      | cons p3 rest3 =>
        unfold reveal_card
        rw [hrevl]
        simp

/-! ### The pairing produced by `setup_game` -/

theorem length_selected (image_keys : List Nat) :
    (selected_images image_keys).length = 8 := by
  unfold selected_images
  split
  · rw [List.length_take]
    omega
  · simp

theorem length_image_pairs (image_keys : List Nat) :
    (image_pairs image_keys).length = 16 := by
  unfold image_pairs
  rw [List.length_append, length_selected]

theorem map_getD_range {α : Type} (d : α) :
    ∀ l : List α, (List.range l.length).map (fun i => l.getD i d) = l := by
  intro l
  induction l with
  | nil => rfl
  | cons a l ih =>
    rw [List.length_cons, List.range_succ_eq_map]
    simp only [List.map_cons, List.map_map]
    have htail : List.map ((fun i => (a :: l).getD i d) ∘ Nat.succ)
        (List.range l.length) = l := by
      have hcomp : ((fun i => (a :: l).getD i d) ∘ Nat.succ) =
          (fun i => l.getD i d) := by
        funext i
        rfl
      rw [hcomp, ih]
    rw [htail]
    rfl

theorem grid_ids_setup (image_keys shuffled : List Nat)
    (hlen : shuffled.length = 16) :
    grid_ids (setup_game image_keys shuffled).cards = shuffled := by
  have h16 : grid_ids (setup_game image_keys shuffled).cards =
      (List.range 16).map (fun i => shuffled.getD i 0) := by
    rfl
  rw [h16, ← hlen, map_getD_range]

/-! ### The claims -/

/-- C1: for every reachable state `g` and every in-game step out of it,
`game_won` is true exactly when all 16 cards are matched (so in
particular after every call to `reveal_card`), and no operation other
than `setup_game` — click, update or draw — ever changes `game_won` from
true to false. -/
theorem game_won_iff_all_matched {g g' : MemoryGame}
    (hr : Reachable g) (hs : Step g g') :
    (g.game_won = true ↔ all_matched g.cards = true) ∧
    (g.game_won = true → g'.game_won = true) := by
  have hInv := reachable_inv hr
  constructor
  · rw [all_matched_iff hInv.shape]
    exact hInv.won_iff
  · intro hw
    cases hs with
    | click now pos =>
      rw [handle_card_click_of_won hw now pos]
      exact hw
    | tick dt hdt =>
      rw [game_won_update]
      exact hw
    | render now =>
      rw [game_won_draw]
      exact hw

/-- Witness for C1: the fresh sample game and a zero-length tick. -/
theorem game_won_iff_all_matched_witness :
    Reachable demoStart ∧ Step demoStart (update demoStart 0) ∧
    (demoStart.game_won = true ↔ all_matched demoStart.cards = true) :=
  ⟨demoStart_reachable, Step.tick demoStart 0 le_rfl,
    (game_won_iff_all_matched demoStart_reachable
      (Step.tick demoStart 0 le_rfl)).1⟩

/-- C2: in every reachable state the revealed-cards sequence has length
0, 1 or 2; no sequence of clicks, updates and draws exceeds 2. -/
theorem revealed_cards_length_le_two {g : MemoryGame} (hr : Reachable g) :
    g.revealed_cards.length ≤ 2 := by
  have hInv := reachable_inv hr
  cases hsm : g.showing_mismatch
  · exact Nat.le_trans (hInv.rev_one hsm) (by omega)
  · exact Nat.le_of_eq (hInv.rev_two hsm)

/-- Witness for C2 at the mismatch-pending state, where the length is
exactly 2. -/
theorem revealed_cards_length_le_two_witness :
    Reachable demoMismatch ∧ demoMismatch.revealed_cards.length ≤ 2 := by
  have hreach : Reachable demoMismatch :=
    reachable_run _ demoStart_reachable (by decide)
  exact ⟨hreach, revealed_cards_length_le_two hreach⟩

/-- C3: a click increments `moves` by exactly 1 when and only when it
reveals the second card of a pair (`second_reveal_click`); every other
click — first card of a pair, miss, or any blocked/no-op click — leaves
`moves` unchanged. -/
theorem moves_click_equation (g : MemoryGame) (now : Rat) (pos : Int × Int) :
    (handle_card_click g now pos).moves =
      if second_reveal_click g pos then g.moves + 1 else g.moves := by
  unfold handle_card_click
  by_cases hguard : (g.game_won || g.showing_mismatch) = true
  · rw [if_pos hguard]
    have hsf : second_reveal_click g pos = false := by
      unfold second_reveal_click
      rcases (by simpa using hguard :
          g.game_won = true ∨ g.showing_mismatch = true) with h | h <;>
        rw [h] <;> simp
    rw [hsf]
    simp
  · rw [if_neg hguard]
    simp only [Bool.or_eq_true, not_or, Bool.not_eq_true] at hguard
    obtain ⟨hw, hsm⟩ := hguard
    cases hfind : find_clicked_cell pos with
    | none =>
      have hsf : second_reveal_click g pos = false := by
        unfold second_reveal_click
        rw [hfind]
        simp
      simp only [hfind, hsf]
      simp
    | some rc =>
      by_cases hh : (getCard g.cards rc).state = CardState.hidden
      · have hsr : second_reveal_click g pos =
            decide (g.revealed_cards.length = 1) := by
          unfold second_reveal_click
          rw [hfind, hw, hsm]
          simp [hh]
        simp only [hfind]
        rw [if_pos hh, moves_reveal_card, hsr]
        by_cases hlen : g.revealed_cards.length = 1
        · rw [if_pos hlen, if_pos (by simp [hlen])]
        · rw [if_neg hlen, if_neg (by simp [hlen])]
      · have hsf : second_reveal_click g pos = false := by
          unfold second_reveal_click
          rw [hfind, hw, hsm]
          simp [hh]
        simp only [hfind, hsf]
        rw [if_neg hh]
        simp

/-- C7: clicking a cell holding a Flipping, Revealed or Matched card is a
no-op, and clicking anywhere while a mismatch is pending is a no-op: the
whole game state is returned unchanged. -/
theorem click_blocked_noop {g : MemoryGame} (now : Rat) {pos : Int × Int}
    (h : g.showing_mismatch = true ∨
      ∃ rc, find_clicked_cell pos = some rc ∧
        ((getCard g.cards rc).state = CardState.flipping ∨
         (getCard g.cards rc).state = CardState.revealed ∨
         (getCard g.cards rc).state = CardState.matched)) :
    handle_card_click g now pos = g := by
  unfold handle_card_click
  rcases h with hsm | ⟨rc, hfind, hst⟩
  · rw [hsm]
    simp
  · have hnh : ¬ (getCard g.cards rc).state = CardState.hidden := by
      rcases hst with h1 | h1 | h1 <;> rw [h1] <;> simp
    split
    · rfl
    · simp only [hfind]
      rw [if_neg hnh]

/-- Witness for C7: in the concrete mismatch-pending state a click at
cell (0,0) — itself holding a non-hidden card — changes nothing. -/
theorem click_blocked_noop_witness :
    demoMismatch.showing_mismatch = true ∧
    handle_card_click demoMismatch 2 (5, 105) = demoMismatch :=
  ⟨by decide, click_blocked_noop 2 (Or.inl (by decide))⟩

/-- C8 counterexample: in the reachable just-won state `demoWon` (won,
`win_time` not yet recorded) a `draw` call does change the game state: it
records the win timestamp.  This refutes "draw leaves every component of
the game state unchanged in every reachable state". -/
theorem draw_mutates_win_time :
    Reachable demoWon ∧ demoWon.game_won = true ∧ demoWon.win_time = none ∧
    draw demoWon 5 ≠ demoWon :=
  ⟨reachable_run winActs demoStart_reachable (by decide), by decide,
    by decide, by decide⟩

/-- C8 amended: `draw` (via `draw_ui`) leaves every component of the game
state unchanged except `win_time`: on the first draw after `game_won`
becomes true it records the win timestamp, and otherwise changes
nothing. -/
theorem draw_changes_only_win_time (g : MemoryGame) (now : Rat) :
    (draw g now).cards = g.cards ∧
    (draw g now).revealed_cards = g.revealed_cards ∧
    (draw g now).moves = g.moves ∧
    (draw g now).start_time = g.start_time ∧
    (draw g now).game_won = g.game_won ∧
    (draw g now).mismatch_timer = g.mismatch_timer ∧
    (draw g now).showing_mismatch = g.showing_mismatch ∧
    (draw g now).win_time =
      (if g.game_won = true ∧ g.win_time = none then some now
       else g.win_time) := by
  unfold draw draw_ui
  have hb : ((g.game_won && g.win_time.isNone) = true) ↔
      (g.game_won = true ∧ g.win_time = none) := by
    simp [Option.isNone_iff_eq_none]
  by_cases h : g.game_won = true ∧ g.win_time = none
  · rw [if_pos (hb.2 h), if_pos h]
    simp
  · rw [if_neg (fun hc => h (hb.1 hc)), if_neg h]
    simp

/-- C10: once `game_won` is true, `handle_card_click` is a no-op for
every click position: the whole state is returned unchanged until a
restart. -/
theorem click_noop_after_win {g : MemoryGame} (h : g.game_won = true)
    (now : Rat) (pos : Int × Int) : handle_card_click g now pos = g :=
  handle_card_click_of_won h now pos

/-- Witness for C10 at the concrete won game. -/
theorem click_noop_after_win_witness :
    demoWon.game_won = true ∧
    handle_card_click demoWon 3 (5, 105) = demoWon :=
  ⟨by decide, click_noop_after_win (by decide) 3 (5, 105)⟩

/-- C4: within a game, a card in state Matched never leaves it: no
subsequent click, update (or draw) changes that card's state. -/
theorem matched_card_stays_matched {g g' : MemoryGame} {p : Nat × Nat}
    (hr : Reachable g) (hs : Step g g')
    (hm : (getCard g.cards p).state = CardState.matched) :
    (getCard g'.cards p).state = CardState.matched := by
  have hInv := reachable_inv hr
  cases hs with
  | render now =>
    rw [cards_draw]
    exact hm
  | tick dt hdt =>
    cases hsm : g.showing_mismatch
    · rw [update_of_no_mismatch dt hsm]
      simp only
      rw [getCard_update_cards, step_card_state_matched]
      exact hm
    · by_cases ht : g.mismatch_timer - dt ≤ 0
      · rw [update_of_mismatch_timeout dt hsm ht]
        have hnotmem : p ∉ g.revealed_cards := by
          intro hmem
          obtain ⟨_, hfr⟩ := hInv.rev_ok p hmem
          rcases hfr with h1 | h1 <;> rw [hm] at h1 <;> simp at h1
        simp only
        rw [getCard_hideCards_not_mem _ _ _ hnotmem, getCard_update_cards,
          step_card_state_matched]
        exact hm
      · rw [update_of_mismatch_pending dt hsm (by linarith [not_le.1 ht])]
        simp only
        rw [getCard_update_cards, step_card_state_matched]
        exact hm
  | click now pos =>
    unfold handle_card_click
    split
    · exact hm
    case isFalse hguard =>
      simp only [Bool.or_eq_true, not_or, Bool.not_eq_true] at hguard
      split
      · exact hm
      case h_2 rc hfind =>
        split
        case isFalse => exact hm
        case isTrue hh =>
          have hne : rc ≠ p := by
            intro he
            rw [he, hm] at hh
            simp at hh
          cases hrevl : g.revealed_cards with
          | nil =>
            rw [reveal_card_of_nil now rc hrevl]
            simp only
            rw [getCard_modifyCard_ne _ hne]
            exact hm
          | cons p1 rest =>
            cases rest with
            | cons p2 rest2 =>
              have hle := hInv.rev_one hguard.2
              rw [hrevl] at hle
              simp at hle
            | nil =>
              obtain ⟨_, hfr1⟩ := hInv.rev_ok p1
                (by rw [hrevl]; exact List.mem_cons_self p1 [])
              have hne1 : p1 ≠ p := by
                intro he
                rw [he] at hfr1
                rcases hfr1 with h1 | h1 <;> rw [hm] at h1 <;> simp at h1
              by_cases hid :
                  (getCard (modifyCard g.cards rc start_flip_animation)
                    p1).image_id =
                  (getCard (modifyCard g.cards rc start_flip_animation)
                    rc).image_id
              · rw [reveal_card_of_one_eq now rc p1 hrevl hid, check_win_cards]
                simp only
                rw [getCard_modifyCard_ne _ hne, getCard_modifyCard_ne _ hne1,
                  getCard_modifyCard_ne _ hne]
                exact hm
              · rw [reveal_card_of_one_ne now rc p1 hrevl hid]
                simp only
                rw [getCard_modifyCard_ne _ hne]
                exact hm

/-- Witness for C4: cell (0,0) is matched in `demoMatched` and stays
matched across an update tick. -/
theorem matched_card_stays_matched_witness :
    Reachable demoMatched ∧ Step demoMatched (update demoMatched 1) ∧
    (getCard demoMatched.cards (0, 0)).state = CardState.matched ∧
    (getCard (update demoMatched 1).cards (0, 0)).state =
      CardState.matched := by
  have hreach : Reachable demoMatched :=
    reachable_run _ demoStart_reachable (by decide)
  have hstep : Step demoMatched (update demoMatched 1) :=
    Step.tick demoMatched 1 (by norm_num)
  exact ⟨hreach, hstep, by decide,
    matched_card_stays_matched hreach hstep (by decide)⟩

/-- C5: when the second revealed card shares the first one's `image_id`,
both cards become Matched inside the same `reveal_card` call, no mismatch
timer is started (the mismatch fields are untouched), the revealed list
is cleared and `moves` grows by exactly 1. -/
theorem matching_pair_matched_immediately {g : MemoryGame} (now : Rat)
    {p1 p2 : Nat × Nat} (hr : Reachable g)
    (hrev : g.revealed_cards = [p1]) (hb2 : inBounds p2)
    (hh2 : (getCard g.cards p2).state = CardState.hidden)
    (hid : (getCard g.cards p1).image_id = (getCard g.cards p2).image_id) :
    (getCard (reveal_card g now p2).cards p1).state = CardState.matched ∧
    (getCard (reveal_card g now p2).cards p2).state = CardState.matched ∧
    (reveal_card g now p2).revealed_cards = [] ∧
    (reveal_card g now p2).moves = g.moves + 1 ∧
    (reveal_card g now p2).showing_mismatch = g.showing_mismatch ∧
    (reveal_card g now p2).mismatch_timer = g.mismatch_timer := by
  have hInv := reachable_inv hr
  obtain ⟨hb1, hfr1⟩ := hInv.rev_ok p1
    (by rw [hrev]; exact List.mem_cons_self p1 [])
  have hne : p1 ≠ p2 := by
    intro he
    rw [he] at hfr1
    rcases hfr1 with h1 | h1 <;> rw [hh2] at h1 <;> simp at h1
  have hne' : p2 ≠ p1 := fun he => hne he.symm
  have hgrid1 : inGrid g.cards p1 := (inGrid_iff_inBounds hInv.shape p1).2 hb1
  have hgrid2 : inGrid g.cards p2 := (inGrid_iff_inBounds hInv.shape p2).2 hb2
  have hid' :
      (getCard (modifyCard g.cards p2 start_flip_animation) p1).image_id =
      (getCard (modifyCard g.cards p2 start_flip_animation) p2).image_id := by
    rw [getCard_modifyCard_ne _ hne', getCard_modifyCard_self _ hgrid2]
    exact hid
  rw [reveal_card_of_one_eq now p2 p1 hrev hid']
  refine ⟨?_, ?_, ?_, ?_, ?_, ?_⟩
  · rw [check_win_cards]
    simp only
    rw [getCard_modifyCard_ne _ hne',
      getCard_modifyCard_self _ ((inGrid_modifyCard _).2 hgrid1)]
    rfl
  · rw [check_win_cards]
    simp only
    rw [getCard_modifyCard_self _
      ((inGrid_modifyCard _).2 ((inGrid_modifyCard _).2 hgrid2))]
    rfl
  · rw [check_win_revealed]
  · rw [check_win_moves]
  · rw [check_win_showing]
  · rw [check_win_timer]

/-- Witness for C5: in `demoOneFlip` (cell (0,0) pending) clicking its
partner cell (2,0) matches both immediately. -/
theorem matching_pair_matched_immediately_witness :
    Reachable demoOneFlip ∧ demoOneFlip.revealed_cards = [(0, 0)] ∧
    inBounds (2, 0) ∧
    (getCard demoOneFlip.cards (2, 0)).state = CardState.hidden ∧
    (getCard demoOneFlip.cards (0, 0)).image_id =
      (getCard demoOneFlip.cards (2, 0)).image_id ∧
    ((getCard (reveal_card demoOneFlip 1 (2, 0)).cards (0, 0)).state =
        CardState.matched ∧
      (getCard (reveal_card demoOneFlip 1 (2, 0)).cards (2, 0)).state =
        CardState.matched ∧
      (reveal_card demoOneFlip 1 (2, 0)).revealed_cards = [] ∧
      (reveal_card demoOneFlip 1 (2, 0)).moves = demoOneFlip.moves + 1 ∧
      (reveal_card demoOneFlip 1 (2, 0)).showing_mismatch =
        demoOneFlip.showing_mismatch ∧
      (reveal_card demoOneFlip 1 (2, 0)).mismatch_timer =
        demoOneFlip.mismatch_timer) := by
  have hreach : Reachable demoOneFlip :=
    reachable_run _ demoStart_reachable (by decide)
  exact ⟨hreach, by decide, by decide, by decide, by decide,
    matching_pair_matched_immediately 1 hreach (by decide) (by decide)
      (by decide) (by decide)⟩

/-- C6: revealing a second card with a different `image_id` increments
`moves` by 1, sets the mismatch timer to 1.0 and marks the mismatch
pending; during the pending window (after the flip animation finishes,
before the timer expires) both cards are in state Revealed; and as soon
as accumulated elapsed time drives the timer to ≤ 0, both cards return to
Hidden, the revealed list empties and mismatch-pending clears. -/
theorem mismatch_pair_timeline {g : MemoryGame} (now : Rat)
    {p1 p2 : Nat × Nat} {dt1 dt2 : Rat} (hr : Reachable g)
    (hrev : g.revealed_cards = [p1]) (hb2 : inBounds p2)
    (hh2 : (getCard g.cards p2).state = CardState.hidden)
    (hid : (getCard g.cards p1).image_id ≠ (getCard g.cards p2).image_id)
    (hdt1a : 1 / 8 ≤ dt1) (hdt1b : dt1 < 1) (hdt2 : 1 ≤ dt1 + dt2) :
    ((reveal_card g now p2).moves = g.moves + 1 ∧
     (reveal_card g now p2).showing_mismatch = true ∧
     (reveal_card g now p2).mismatch_timer = 1) ∧
    ((getCard (update (reveal_card g now p2) dt1).cards p1).state =
        CardState.revealed ∧
     (getCard (update (reveal_card g now p2) dt1).cards p2).state =
        CardState.revealed ∧
     (update (reveal_card g now p2) dt1).revealed_cards = [p1, p2] ∧
     (update (reveal_card g now p2) dt1).showing_mismatch = true) ∧
    ((getCard (update (update (reveal_card g now p2) dt1) dt2).cards
        p1).state = CardState.hidden ∧
     (getCard (update (update (reveal_card g now p2) dt1) dt2).cards
        p2).state = CardState.hidden ∧
     (update (update (reveal_card g now p2) dt1) dt2).revealed_cards = [] ∧
     (update (update (reveal_card g now p2) dt1) dt2).showing_mismatch =
        false) := by
  have hInv := reachable_inv hr
  obtain ⟨hb1, hfr1⟩ := hInv.rev_ok p1
    (by rw [hrev]; exact List.mem_cons_self p1 [])
  have hne : p1 ≠ p2 := by
    intro he
    rw [he] at hfr1
    rcases hfr1 with h1 | h1 <;> rw [hh2] at h1 <;> simp at h1
  have hne' : p2 ≠ p1 := fun he => hne he.symm
  have hgrid2 : inGrid g.cards p2 := (inGrid_iff_inBounds hInv.shape p2).2 hb2
  have hid' :
      ¬ ((getCard (modifyCard g.cards p2 start_flip_animation) p1).image_id =
        (getCard (modifyCard g.cards p2 start_flip_animation) p2).image_id) := by
    rw [getCard_modifyCard_ne _ hne', getCard_modifyCard_self _ hgrid2]
    exact hid
  have hshape1 : gridShape (modifyCard g.cards p2 start_flip_animation) :=
    gridShape_modifyCard p2 _ hInv.shape
  have hshape2 : gridShape
      (update_cards (modifyCard g.cards p2 start_flip_animation) dt1) :=
    gridShape_update_cards hshape1 dt1
  have hshape3 : gridShape (update_cards
      (update_cards (modifyCard g.cards p2 start_flip_animation) dt1) dt2) :=
    gridShape_update_cards hshape2 dt2
  have hdt1c : (1:Rat) ≤ dt1 * 8 := by linarith
  have hget1 : getCard (modifyCard g.cards p2 start_flip_animation) p1 =
      getCard g.cards p1 := getCard_modifyCard_ne _ hne'
  have hget2 : getCard (modifyCard g.cards p2 start_flip_animation) p2 =
      start_flip_animation (getCard g.cards p2) :=
    getCard_modifyCard_self _ hgrid2
  -- state of the two cards after the first update
  have hstep1 : (step_card dt1
      (getCard (modifyCard g.cards p2 start_flip_animation) p1)).state =
      CardState.revealed := by
    rw [hget1]
    rcases hfr1 with h1 | h1
    · exact step_card_flip_done h1 (hInv.prog p1) hdt1c
    · rw [step_card_of_revealed dt1 h1]
      exact h1
  have hstep2 : (step_card dt1
      (getCard (modifyCard g.cards p2 start_flip_animation) p2)).state =
      CardState.revealed := by
    rw [hget2]
    refine step_card_flip_done rfl ?_ hdt1c
    simp [start_flip_animation]
  rw [reveal_card_of_one_ne now p2 p1 hrev hid']
  rw [update_of_mismatch_pending dt1 rfl
    (show (0:Rat) < 1 - dt1 by linarith)]
  rw [update_of_mismatch_timeout dt2 rfl
    (show (1:Rat) - dt1 - dt2 ≤ 0 by linarith)]
  refine ⟨⟨rfl, rfl, rfl⟩, ⟨?_, ?_, rfl, rfl⟩, ⟨?_, ?_, rfl, rfl⟩⟩
  · simp only
    rw [getCard_update_cards]
    exact hstep1
  · simp only
    rw [getCard_update_cards]
    exact hstep2
  · simp only
    rw [getCard_hideCards_mem _ _ _ (by simp [hne])
      (List.mem_cons_self p1 [p2]) ((inGrid_iff_inBounds hshape3 p1).2 hb1)]
  · simp only
    rw [getCard_hideCards_mem _ _ _ (by simp [hne])
      (by simp) ((inGrid_iff_inBounds hshape3 p2).2 hb2)]

/-- Witness for C6: in `demoOneFlip`, clicking cell (0,1) (different id)
then updating by 0.5s twice plays out the whole mismatch timeline. -/
theorem mismatch_pair_timeline_witness :
    Reachable demoOneFlip ∧ demoOneFlip.revealed_cards = [(0, 0)] ∧
    inBounds (0, 1) ∧
    (getCard demoOneFlip.cards (0, 1)).state = CardState.hidden ∧
    (getCard demoOneFlip.cards (0, 0)).image_id ≠
      (getCard demoOneFlip.cards (0, 1)).image_id ∧
    (((reveal_card demoOneFlip 1 (0, 1)).moves = demoOneFlip.moves + 1 ∧
      (reveal_card demoOneFlip 1 (0, 1)).showing_mismatch = true ∧
      (reveal_card demoOneFlip 1 (0, 1)).mismatch_timer = 1) ∧
     ((getCard (update (reveal_card demoOneFlip 1 (0, 1)) (1 / 2)).cards
         (0, 0)).state = CardState.revealed ∧
      (getCard (update (reveal_card demoOneFlip 1 (0, 1)) (1 / 2)).cards
         (0, 1)).state = CardState.revealed ∧
      (update (reveal_card demoOneFlip 1 (0, 1)) (1 / 2)).revealed_cards =
        [(0, 0), (0, 1)] ∧
      (update (reveal_card demoOneFlip 1 (0, 1)) (1 / 2)).showing_mismatch =
        true) ∧
     ((getCard (update (update (reveal_card demoOneFlip 1 (0, 1)) (1 / 2))
         (1 / 2)).cards (0, 0)).state = CardState.hidden ∧
      (getCard (update (update (reveal_card demoOneFlip 1 (0, 1)) (1 / 2))
         (1 / 2)).cards (0, 1)).state = CardState.hidden ∧
      (update (update (reveal_card demoOneFlip 1 (0, 1)) (1 / 2))
         (1 / 2)).revealed_cards = [] ∧
      (update (update (reveal_card demoOneFlip 1 (0, 1)) (1 / 2))
         (1 / 2)).showing_mismatch = false)) := by
  have hreach : Reachable demoOneFlip :=
    reachable_run _ demoStart_reachable (by decide)
  exact ⟨hreach, by decide, by decide, by decide, by decide,
    mismatch_pair_timeline 1 hreach (by decide) (by decide) (by decide)
      (by decide) (by norm_num) (by norm_num) (by norm_num)⟩

/-- C9: under any permutation for the shuffle, `setup_game` yields a 4x4
grid whose flattened id list has 16 entries; every selected id occurs at
least twice; and when at least 8 distinct ids are available, exactly the
first 8 ids appear — each exactly twice — so 8 distinct ids cover the 16
cells. -/
theorem setup_game_pairing (image_keys shuffled : List Nat)
    (hperm : shuffled.Perm (image_pairs image_keys)) :
    gridShape (setup_game image_keys shuffled).cards ∧
    (grid_ids (setup_game image_keys shuffled).cards).length = 16 ∧
    (∀ k ∈ selected_images image_keys,
      2 ≤ (grid_ids (setup_game image_keys shuffled).cards).count k) ∧
    (image_keys.Nodup → 8 ≤ image_keys.length →
      (∀ k ∈ image_keys.take 8,
        (grid_ids (setup_game image_keys shuffled).cards).count k = 2) ∧
      (grid_ids (setup_game image_keys shuffled).cards).toFinset =
        (image_keys.take 8).toFinset ∧
      (grid_ids (setup_game image_keys shuffled).cards).toFinset.card =
        8) := by
  have hlen : shuffled.length = 16 := by
    rw [hperm.length_eq, length_image_pairs]
  have hgid : grid_ids (setup_game image_keys shuffled).cards = shuffled :=
    grid_ids_setup _ _ hlen
  refine ⟨shape_setup _ _, by rw [hgid]; exact hlen, ?_, ?_⟩
  · intro k hk
    rw [hgid, hperm.count_eq]
    unfold image_pairs
    rw [List.count_append]
    have hpos : 0 < (selected_images image_keys).count k :=
      List.count_pos_iff.2 hk
    omega
  · intro hnd hlen8
    have hsel : selected_images image_keys = image_keys.take 8 := by
      unfold selected_images
      rw [if_pos hlen8]
    have htknd : (image_keys.take 8).Nodup :=
      hnd.sublist (List.take_sublist 8 image_keys)
    have htklen : (image_keys.take 8).length = 8 := by
      rw [List.length_take]
      omega
    refine ⟨?_, ?_, ?_⟩
    · intro k hk
      rw [hgid, hperm.count_eq]
      unfold image_pairs
      rw [List.count_append, hsel, List.count_eq_one_of_mem htknd hk]
    · rw [hgid, List.toFinset_eq_of_perm _ _ hperm]
      unfold image_pairs
      rw [List.toFinset_append, hsel, Finset.union_self]
    · rw [hgid, List.toFinset_eq_of_perm _ _ hperm]
      unfold image_pairs
      rw [List.toFinset_append, hsel, Finset.union_self,
        List.toFinset_card_of_nodup htknd, htklen]

/-- Witness for C9 with the 8 distinct demo keys and the identity
shuffle. -/
theorem setup_game_pairing_witness :
    (image_pairs demoKeys).Perm (image_pairs demoKeys) ∧
    gridShape (setup_game demoKeys (image_pairs demoKeys)).cards ∧
    (grid_ids (setup_game demoKeys (image_pairs demoKeys)).cards).length =
      16 ∧
    (grid_ids (setup_game demoKeys
      (image_pairs demoKeys)).cards).toFinset.card = 8 :=
  ⟨List.Perm.refl _,
    (setup_game_pairing demoKeys _ (List.Perm.refl _)).1,
    (setup_game_pairing demoKeys _ (List.Perm.refl _)).2.1,
    ((setup_game_pairing demoKeys _ (List.Perm.refl _)).2.2.2
      (by decide) (by decide)).2.2⟩

end MemoryMatch
